import Mathlib

/-!
# Formal model of `flyguide/gbif_prep_from_csv.py`

The script reads a delimited text file with `species`, `genus`, `kingdom`
columns and writes two artifacts: a sorted, deduplicated list of search
names, and a sorted, deduplicated tab-separated species/kingdom table.

Strings are modelled as lists of Unicode code points (`List Char`),
matching Python's view of `str` as a sequence of code points.  The file
contents are modelled after text-mode decoding (UTF-8 with lossy
replacement, BOM stripped by the `utf-8-sig` codec, and universal-newline
translation), which is the form the script itself observes.
-/

namespace GbifPrep

abbrev Str := List Char

/-- The ASCII characters stripped by Python's `str.strip()` with no
arguments (`str.strip` also strips some non-ASCII Unicode whitespace;
the ASCII subset is what the data of interest can contain). -/
def pyWhitespace (c : Char) : Bool :=
  c = ' ' || c = '\t' || c = '\n' || c = '\r' || c = '\x0B' || c = '\x0C'

/-- Python `s.strip()`: remove leading and trailing whitespace. -/
def pyStrip (s : Str) : Str :=
  ((s.dropWhile pyWhitespace).reverse.dropWhile pyWhitespace).reverse

/-- Python `s.lower()` restricted to ASCII case folding (`Char.toLower`),
which is all the required column names exercise. -/
def lowerStr (s : Str) : Str := s.map Char.toLower

/-- Python `f.readline()`: the character sequence up to and including the
first newline, or the whole input when it has none. -/
def readFirstLine : Str → Str
  | [] => []
  | c :: cs => if c = '\n' then [c] else c :: readFirstLine cs

/-- The delimiter auto-detection on the first line of the input
(`gbif_prep_from_csv.py`, lines 43-49):
tab when the line has a tab and no comma, comma when it has a comma and
no tab, otherwise whichever of the two occurs more often, ties to tab
(`first_line.count("\t") >= first_line.count(",")`). -/
def detectDelimiter (line : Str) : Char :=
  if '\t' ∈ line ∧ ',' ∉ line then '\t'
  else if ',' ∈ line ∧ '\t' ∉ line then ','
  else if line.count ',' ≤ line.count '\t' then '\t' else ','

/-! ## Python dictionaries

The script builds two dictionaries: the lowercase header map
(`{name.lower(): name for name in fieldnames}`) and, per row, the
`csv.DictReader` row dictionary.  Both are modelled as association lists
with Python's assignment semantics: assigning to an existing key replaces
its value in place, assigning a fresh key appends it. -/

def insertA (m : List (Str × Str)) (k v : Str) : List (Str × Str) :=
  match m with
  | [] => [(k, v)]
  | (k', v') :: rest => if k' = k then (k, v) :: rest else (k', v') :: insertA rest k v

def lookupA (m : List (Str × Str)) (k : Str) : Option Str :=
  match m with
  | [] => none
  | (k', v) :: rest => if k' = k then some v else lookupA rest k

/-- A Python dict built by inserting the given key/value pairs in order. -/
def buildDict (ps : List (Str × Str)) : List (Str × Str) :=
  ps.foldl (fun m kv => insertA m kv.1 kv.2) []

/-- `lower_map = {name.lower(): name for name in fieldnames}`
(`gbif_prep_from_csv.py`, line 53). -/
def buildLowerMap (fieldnames : List Str) : List (Str × Str) :=
  buildDict (fieldnames.map fun n => (lowerStr n, n))

/-- `required = ["species", "genus", "kingdom"]` (line 56). -/
def requiredCols : List Str := ["species".data, "genus".data, "kingdom".data]

/-- `missing = [c for c in required if c not in lower_map]` (line 57). -/
def missingCols (fieldnames : List Str) : List Str :=
  requiredCols.filter fun c => (lookupA (buildLowerMap fieldnames) c).isNone

/-- Pair each fieldname with the corresponding cell of a data row; rows
shorter than the header are padded with the empty string, modelling
`csv.DictReader`'s `restval=None` together with the script's
`(row.get(col, "") or "")` which maps `None` to `""`. -/
def padZip : List Str → List Str → List (Str × Str)
  | [], _ => []
  | n :: ns, [] => (n, []) :: padZip ns []
  | n :: ns, v :: vs => (n, v) :: padZip ns vs

/-- The `csv.DictReader` row dictionary for one data row: fieldnames are
assigned their cells in header order, so a duplicated header name keeps
the value of its last occurrence. -/
def rowDict (fieldnames cells : List Str) : List (Str × Str) :=
  buildDict (padZip fieldnames cells)

/-- `(row.get(col, "") or "")`: the value of column `col` in a row. -/
def rowGet (fieldnames cells : List Str) (col : Str) : Str :=
  (lookupA (rowDict fieldnames cells) col).getD []

/-- Reading a logical (lowercase) column from a row: resolve the original
header name through `lower_map`, then read that column
(`col_species = lower_map["species"]; row.get(col_species, "")`,
lines 67-75).  The `none` branch is unreachable once header validation
has passed. -/
def readField (fieldnames cells : List Str) (logical : Str) : Str :=
  match lookupA (buildLowerMap fieldnames) logical with
  | some col => rowGet fieldnames cells col
  | none => []

/-! ## Aggregation (lines 72-88) -/

/-- `set.add`, modelled on lists: adding a present element is a no-op,
a fresh element is appended. -/
def setAdd {α : Type} [DecidableEq α] (l : List α) (x : α) : List α :=
  if x ∈ l then l else l ++ [x]

structure AggState where
  names : List Str
  pairs : List (Str × Str)
  deriving DecidableEq

/-- `sp = (row.get(col_species, "") or "").strip()` (line 74). -/
def rowSpecies (fieldnames cells : List Str) : Str :=
  pyStrip (readField fieldnames cells "species".data)

/-- `genus = (row.get(col_genus, "") or "").strip()` (line 75). -/
def rowGenus (fieldnames cells : List Str) : Str :=
  pyStrip (readField fieldnames cells "genus".data)

/-- `kingdom = (row.get(col_kingdom, "") or "").strip()` (line 76). -/
def rowKingdom (fieldnames cells : List Str) : Str :=
  pyStrip (readField fieldnames cells "kingdom".data)

/-- One iteration of the row loop (lines 73-88): strip the three resolved
fields; a non-empty species joins the search set and, with a non-empty
kingdom, the pair set; otherwise a non-empty genus joins the search set. -/
def aggStep (fieldnames : List Str) (st : AggState) (cells : List Str) : AggState :=
  if rowSpecies fieldnames cells ≠ [] then
    { names := setAdd st.names (rowSpecies fieldnames cells),
      pairs :=
        if rowKingdom fieldnames cells ≠ [] then
          setAdd st.pairs (rowSpecies fieldnames cells, rowKingdom fieldnames cells)
        else st.pairs }
  else if rowGenus fieldnames cells ≠ [] then
    { st with names := setAdd st.names (rowGenus fieldnames cells) }
  else st

/-- The whole row loop, from empty accumulator sets. -/
def aggregate (fieldnames : List Str) (dataRows : List (List Str)) : AggState :=
  dataRows.foldl (aggStep fieldnames) ⟨[], []⟩

/-! ## Ordering and serialization

Python compares strings lexicographically by code point and tuples
componentwise; `sorted` produces a list that is sorted for `<=`. -/

/-- Python `<` on strings: strict lexicographic order by code point. -/
def strLt : Str → Str → Bool
  | [], [] => false
  | [], _ :: _ => true
  | _ :: _, [] => false
  | a :: as, b :: bs => if a < b then true else if b < a then false else strLt as bs

/-- Python `<=` on strings. -/
def strLe : Str → Str → Bool
  | [], _ => true
  | _ :: _, [] => false
  | a :: as, b :: bs => if a < b then true else if b < a then false else strLe as bs

/-- Python `<=` on pairs of strings: first components decide, ties fall
to the second components. -/
def pairLe (p q : Str × Str) : Bool :=
  if p.1 = q.1 then strLe p.2 q.2 else strLt p.1 q.1

/-- Insert an element into a sorted list, keeping it sorted. -/
def insertSorted (le : α → α → Bool) (x : α) : List α → List α
  | [] => [x]
  | y :: ys => if le x y then x :: y :: ys else y :: insertSorted le x ys

/-- Sorting by repeated insertion; models Python's `sorted(...)`, which
produces the unique `<=`-sorted enumeration of a set. -/
def insSort (le : α → α → Bool) : List α → List α
  | [] => []
  | x :: xs => insertSorted le x (insSort le xs)

/-- `sorted(...)` on a set of names. -/
def sortStr (l : List Str) : List Str := insSort strLe l

/-- `sorted(...)` on a set of (species, kingdom) pairs. -/
def sortPairs (l : List (Str × Str)) : List (Str × Str) := insSort pairLe l

/-- Writing the search list (lines 90-92): each name of the sorted set
followed by a newline. -/
def writeFile1 (names : List Str) : Str :=
  ((sortStr names).map fun n => n ++ ['\n']).flatten

/-! ## The `csv.writer` of file 2 (lines 95-98)

`csv.writer(f_out, delimiter="\t")` uses the `excel` dialect: minimal
quoting with quotechar `"`, doubled embedded quotes, record terminator
`"\r\n"` (the file is opened with `newline=""`, so the terminator reaches
the file untranslated).  A field is quoted exactly when it contains the
delimiter (tab), the quote character, or a carriage return or line feed. -/

def csvNeedsQuote (s : Str) : Bool :=
  s.any fun c => c = '\t' || c = '"' || c = '\r' || c = '\n'

/-- Double every quote character of a field body. -/
def csvEscape (s : Str) : Str :=
  s.flatMap fun c => if c = '"' then ['"', '"'] else [c]

/-- Serialize one field under minimal quoting. -/
def csvField (s : Str) : Str :=
  if csvNeedsQuote s then '"' :: (csvEscape s ++ ['"']) else s

/-- `writer.writerow([sp, kd])`: both fields, tab-separated, CRLF. -/
def csvRow (p : Str × Str) : Str :=
  csvField p.1 ++ '\t' :: (csvField p.2 ++ ['\r', '\n'])

/-- Writing the species/kingdom table: the sorted pair set, one CSV
record per pair. -/
def writeFile2 (pairs : List (Str × Str)) : Str :=
  ((sortPairs pairs).map csvRow).flatten

/-! ## The whole program -/

inductive ErrInfo
  | emptyInput
  | missingColumns (missing : List Str) (found : List Str)
  deriving DecidableEq

/-- The observable outcome of one run: the process exit code, the error
reported on the diagnostic stream (if any), and the files written, as
(name, content) pairs in the order they are created. -/
structure Outcome where
  exitCode : Nat
  err : Option ErrInfo
  files : List (Str × Str)
  deriving DecidableEq

def searchSuffix : Str := "_species_search.txt".data
def kingdomSuffix : Str := "_species_kingdom.tsv".data

/-- The `main` pipeline after argument handling, parameterized by the
`csv.reader` parsing function `parse` (delimiter and full decoded input
to the table of rows; its first row is `reader.fieldnames`) and by the
output name pfx.  An empty input fails before parsing; a header missing
a required column fails before any file is written; otherwise both files
are produced and the process exits 0. -/
def runProgram (parse : Char → Str → List (List Str)) (pfx : Str) (input : Str) : Outcome :=
  if input = [] then ⟨1, some .emptyInput, []⟩
  else
    let delim := detectDelimiter (readFirstLine input)
    let table := parse delim input
    let fieldnames := table.headD []
    let dataRows := table.tail
    let missing := missingCols fieldnames
    if missing ≠ [] then ⟨1, some (.missingColumns missing fieldnames), []⟩
    else
      let st := aggregate fieldnames dataRows
      ⟨0, none,
        [(pfx ++ searchSuffix, writeFile1 st.names),
         (pfx ++ kingdomSuffix, writeFile2 st.pairs)]⟩

/-! ## Order lemmas for the string and pair comparisons -/

theorem strLt_irrefl : ∀ s : Str, strLt s s = false
  | [] => rfl
  | a :: as => by simp [strLt, strLt_irrefl as]

theorem strLt_trans : ∀ s t u : Str,
    strLt s t = true → strLt t u = true → strLt s u = true := by
  intro s
  induction s with
  | nil =>
    intro t u hst htu
    cases t with
    | nil => simp [strLt] at hst
    | cons b bs =>
      cases u with
      | nil => simp [strLt] at htu
      | cons c cs => rfl
  | cons a as ih =>
    intro t u hst htu
    cases t with
    | nil => simp [strLt] at hst
    | cons b bs =>
      cases u with
      | nil => simp [strLt] at htu
      | cons c cs =>
        rcases lt_trichotomy a b with hab | hab | hab
        · rcases lt_trichotomy b c with hbc | hbc | hbc
          · simp [strLt, lt_trans hab hbc]
          · subst hbc; simp [strLt, hab]
          · simp [strLt, hbc.asymm, hbc] at htu
        · subst hab
          simp only [strLt, lt_irrefl, if_false] at hst
          rcases lt_trichotomy a c with hac | hac | hac
          · simp [strLt, hac]
          · subst hac
            simp only [strLt, lt_irrefl, if_false] at htu ⊢
            exact ih bs cs hst htu
          · simp [strLt, hac.asymm, hac] at htu
        · simp [strLt, hab.asymm, hab] at hst

theorem strLt_connex : ∀ s t : Str, strLt s t = true ∨ strLt t s = true ∨ s = t := by
  intro s
  induction s with
  | nil =>
    intro t
    cases t with
    | nil => exact Or.inr (Or.inr rfl)
    | cons b bs => exact Or.inl rfl
  | cons a as ih =>
    intro t
    cases t with
    | nil => exact Or.inr (Or.inl rfl)
    | cons b bs =>
      rcases lt_trichotomy a b with hab | hab | hab
      · exact Or.inl (by simp [strLt, hab])
      · subst hab
        rcases ih bs with h | h | h
        · exact Or.inl (by simp [strLt, h])
        · exact Or.inr (Or.inl (by simp [strLt, h]))
        · exact Or.inr (Or.inr (by rw [h]))
      · exact Or.inr (Or.inl (by simp [strLt, hab]))

theorem strLt_asymm (s t : Str) (h : strLt s t = true) : strLt t s = false := by
  cases h' : strLt t s with
  | false => rfl
  | true =>
    have := strLt_trans s t s h h'
    rw [strLt_irrefl] at this
    exact absurd this (by simp)

theorem strLe_eq : ∀ s t : Str, strLe s t = true ↔ (strLt s t = true ∨ s = t) := by
  intro s
  induction s with
  | nil =>
    intro t
    cases t with
    | nil => simp [strLe, strLt]
    | cons b bs => simp [strLe, strLt]
  | cons a as ih =>
    intro t
    cases t with
    | nil => simp [strLe, strLt]
    | cons b bs =>
      rcases lt_trichotomy a b with hab | hab | hab
      · simp [strLe, strLt, hab]
      · subst hab
        simp only [strLe, strLt, lt_irrefl, if_false]
        rw [ih bs]
        simp
      · have hne : a ≠ b := fun h => absurd hab (by rw [h]; exact lt_irrefl b)
        simp [strLe, strLt, hab.asymm, hab, hne]

theorem strLe_refl (s : Str) : strLe s s = true := (strLe_eq s s).mpr (Or.inr rfl)

theorem strLe_trans (s t u : Str) (h1 : strLe s t = true) (h2 : strLe t u = true) :
    strLe s u = true := by
  rcases (strLe_eq s t).mp h1 with h1' | rfl
  · rcases (strLe_eq t u).mp h2 with h2' | rfl
    · exact (strLe_eq s u).mpr (Or.inl (strLt_trans s t u h1' h2'))
    · exact (strLe_eq s t).mpr (Or.inl h1')
  · exact h2

theorem strLe_total (s t : Str) : strLe s t = true ∨ strLe t s = true := by
  rcases strLt_connex s t with h | h | h
  · exact Or.inl ((strLe_eq s t).mpr (Or.inl h))
  · exact Or.inr ((strLe_eq t s).mpr (Or.inl h))
  · exact Or.inl ((strLe_eq s t).mpr (Or.inr h))

theorem strLe_antisymm (s t : Str) (h1 : strLe s t = true) (h2 : strLe t s = true) :
    s = t := by
  rcases (strLe_eq s t).mp h1 with h1' | rfl
  · rcases (strLe_eq t s).mp h2 with h2' | rfl
    · have := strLt_asymm s t h1'; rw [h2'] at this; exact absurd this (by simp)
    · rfl
  · rfl

theorem pairLe_total (p q : Str × Str) : pairLe p q = true ∨ pairLe q p = true := by
  unfold pairLe
  by_cases h : p.1 = q.1
  · simp only [h, if_pos rfl, if_pos h.symm]
    exact strLe_total p.2 q.2
  · rw [if_neg h, if_neg (Ne.symm h)]
    rcases strLt_connex p.1 q.1 with h' | h' | h'
    · exact Or.inl h'
    · exact Or.inr h'
    · exact absurd h' h

theorem pairLe_trans (p q r : Str × Str) (h1 : pairLe p q = true) (h2 : pairLe q r = true) :
    pairLe p r = true := by
  unfold pairLe at h1 h2 ⊢
  by_cases hpq : p.1 = q.1
  · rw [if_pos hpq] at h1
    by_cases hqr : q.1 = r.1
    · rw [if_pos hqr] at h2
      rw [if_pos (hpq.trans hqr)]
      exact strLe_trans _ _ _ h1 h2
    · rw [if_neg hqr] at h2
      rw [if_neg (hpq ▸ hqr), hpq]
      exact h2
  · rw [if_neg hpq] at h1
    by_cases hqr : q.1 = r.1
    · rw [if_neg (fun h : p.1 = r.1 => hpq (h.trans hqr.symm)), ← hqr]
      exact h1
    · rw [if_neg hqr] at h2
      have hpr : strLt p.1 r.1 = true := strLt_trans _ _ _ h1 h2
      rw [if_neg ?_]
      · exact hpr
      · intro h
        rw [h] at h1
        have := strLt_asymm _ _ h1
        rw [h2] at this
        exact absurd this (by simp)

theorem pairLe_antisymm (p q : Str × Str) (h1 : pairLe p q = true) (h2 : pairLe q p = true) :
    p = q := by
  unfold pairLe at h1 h2
  by_cases h : p.1 = q.1
  · rw [if_pos h] at h1
    rw [if_pos h.symm] at h2
    exact Prod.ext h (strLe_antisymm _ _ h1 h2)
  · rw [if_neg h] at h1
    rw [if_neg (Ne.symm h)] at h2
    have := strLt_asymm _ _ h1
    rw [h2] at this
    exact absurd this (by simp)

/-! ## Insertion sort lemmas -/

theorem perm_insertSorted {α : Type} (le : α → α → Bool) (x : α) :
    ∀ l : List α, (insertSorted le x l).Perm (x :: l) := by
  intro l
  induction l with
  | nil => exact List.Perm.refl _
  | cons y ys ih =>
    unfold insertSorted
    by_cases h : le x y = true
    · rw [if_pos h]
    · rw [if_neg h]
      exact (List.Perm.cons y ih).trans (List.Perm.swap x y ys)

theorem perm_insSort {α : Type} (le : α → α → Bool) :
    ∀ l : List α, (insSort le l).Perm l := by
  intro l
  induction l with
  | nil => exact List.Perm.refl _
  | cons x xs ih =>
    exact (perm_insertSorted le x (insSort le xs)).trans (List.Perm.cons x ih)

theorem mem_insSort {α : Type} (le : α → α → Bool) {x : α} {l : List α} :
    x ∈ insSort le l ↔ x ∈ l :=
  (perm_insSort le l).mem_iff

theorem sorted_insertSorted {α : Type} (le : α → α → Bool)
    (htrans : ∀ a b c, le a b = true → le b c = true → le a c = true)
    (htotal : ∀ a b, le a b = true ∨ le b a = true) (x : α) :
    ∀ l : List α, l.Pairwise (fun a b => le a b = true) →
      (insertSorted le x l).Pairwise (fun a b => le a b = true) := by
  intro l
  induction l with
  | nil => intro _; simp [insertSorted]
  | cons y ys ih =>
    intro h
    rw [List.pairwise_cons] at h
    obtain ⟨hy, hys⟩ := h
    unfold insertSorted
    by_cases hxy : le x y = true
    · rw [if_pos hxy]
      refine List.Pairwise.cons ?_ (List.Pairwise.cons hy hys)
      intro z hz
      rcases List.mem_cons.mp hz with rfl | hz'
      · exact hxy
      · exact htrans x y z hxy (hy z hz')
    · rw [if_neg hxy]
      refine List.Pairwise.cons ?_ (ih hys)
      intro z hz
      have hz' : z ∈ x :: ys := (perm_insertSorted le x ys).subset hz
      rcases List.mem_cons.mp hz' with hzx | hz''
      · rw [hzx]
        rcases htotal x y with h' | h'
        · exact absurd h' hxy
        · exact h'
      · exact hy z hz''

theorem sorted_insSort {α : Type} (le : α → α → Bool)
    (htrans : ∀ a b c, le a b = true → le b c = true → le a c = true)
    (htotal : ∀ a b, le a b = true ∨ le b a = true) :
    ∀ l : List α, (insSort le l).Pairwise (fun a b => le a b = true) := by
  intro l
  induction l with
  | nil => exact List.Pairwise.nil
  | cons x xs ih => exact sorted_insertSorted le htrans htotal x (insSort le xs) ih

theorem sorted_perm_eq {α : Type} (le : α → α → Bool)
    (hanti : ∀ a b, le a b = true → le b a = true → a = b)
    {l1 l2 : List α} (hperm : l1.Perm l2)
    (h1 : l1.Pairwise (fun a b => le a b = true))
    (h2 : l2.Pairwise (fun a b => le a b = true)) : l1 = l2 := by
  haveI : IsAntisymm α (fun a b => le a b = true) := ⟨hanti⟩
  exact List.eq_of_perm_of_sorted hperm h1 h2

/-! ## Dictionary lemmas -/

theorem lookupA_insertA (m : List (Str × Str)) (k v k' : Str) :
    lookupA (insertA m k v) k' = if k = k' then some v else lookupA m k' := by
  induction m with
  | nil =>
    simp only [insertA]
    by_cases h : k = k' <;> simp [h, lookupA]
  | cons p rest ih =>
    obtain ⟨pk, pv⟩ := p
    by_cases hpk : pk = k
    · subst hpk
      by_cases h' : pk = k'
      · simp [insertA, lookupA, h']
      · simp [insertA, lookupA, h']
    · by_cases h2 : pk = k'
      · have hk : ¬k = k' := fun h => hpk (h2.trans h.symm)
        have hk2 : ¬k' = k := fun h => hpk (h2.trans h)
        simp [insertA, lookupA, hpk, h2, hk, hk2]
      · simp [insertA, lookupA, hpk, h2, ih]

theorem lookupA_foldl_insert (ps : List (Str × Str)) (m : List (Str × Str)) (k : Str) :
    lookupA (ps.foldl (fun m kv => insertA m kv.1 kv.2) m) k =
      ((ps.filter fun kv => kv.1 = k).getLast?).elim (lookupA m k) (fun kv => some kv.2) := by
  induction ps using List.reverseRecOn with
  | nil => simp
  | append_singleton ps kv ih =>
    rw [List.foldl_append, List.filter_append]
    simp only [List.foldl_cons, List.foldl_nil]
    rw [lookupA_insertA]
    by_cases h : kv.1 = k
    · simp [h, List.getLast?_concat]
    · simp [h, ih]

theorem lookupA_buildDict (ps : List (Str × Str)) (k : Str) :
    lookupA (buildDict ps) k = ((ps.filter fun kv => kv.1 = k).getLast?).map Prod.snd := by
  unfold buildDict
  rw [lookupA_foldl_insert]
  cases (ps.filter fun kv => kv.1 = k).getLast? <;> simp [lookupA]

theorem lookupA_buildLowerMap (fieldnames : List Str) (k : Str) :
    lookupA (buildLowerMap fieldnames) k =
      (fieldnames.filter fun n => lowerStr n = k).getLast? := by
  unfold buildLowerMap
  rw [lookupA_buildDict, List.filter_map, List.getLast?_map, Option.map_map]
  have hp : ((fun kv : Str × Str => decide (kv.1 = k)) ∘ fun n : Str => (lowerStr n, n)) =
      (fun n : Str => decide (lowerStr n = k)) := rfl
  rw [hp]
  show Option.map id ((fieldnames.filter fun n => decide (lowerStr n = k)).getLast?) = _
  simp

theorem lookupA_buildLowerMap_none (fieldnames : List Str) (k : Str) :
    lookupA (buildLowerMap fieldnames) k = none ↔ ∀ n ∈ fieldnames, lowerStr n ≠ k := by
  rw [lookupA_buildLowerMap, List.getLast?_eq_none_iff, List.filter_eq_nil_iff]
  simp

/-! ## Row dictionary lemmas -/

theorem padZip_cons (n : Str) (ns cells : List Str) :
    padZip (n :: ns) cells = (n, cells.headD []) :: padZip ns cells.tail := by
  cases cells <;> rfl

theorem padZip_append (l1 l2 cells : List Str) :
    padZip (l1 ++ l2) cells = padZip l1 cells ++ padZip l2 (cells.drop l1.length) := by
  induction l1 generalizing cells with
  | nil => simp [padZip]
  | cons n ns ih =>
    cases cells with
    | nil => simp [padZip, ih]
    | cons v vs => simp [padZip, ih]

theorem fst_mem_padZip : ∀ (ns cells : List Str) (p : Str × Str),
    p ∈ padZip ns cells → p.1 ∈ ns := by
  intro ns
  induction ns with
  | nil => intro cells p h; simp [padZip] at h
  | cons n ns ih =>
    intro cells p h
    rw [padZip_cons] at h
    rcases List.mem_cons.mp h with rfl | h'
    · simp
    · exact List.mem_cons.mpr (Or.inr (ih _ _ h'))

theorem headD_drop : ∀ (i : Nat) (l : List Str), (l.drop i).headD ([] : Str) = l.getD i [] := by
  intro i
  induction i with
  | zero => intro l; cases l <;> rfl
  | succ n ih =>
    intro l
    cases l with
    | nil => rfl
    | cons a as => simp [ih as]

/-! ## Aggregation lemmas -/

/-- The names a single row contributes to the search set: its stripped
species when non-empty, else its stripped genus when non-empty. -/
def nameContrib (fieldnames cells : List Str) (x : Str) : Prop :=
  (rowSpecies fieldnames cells ≠ [] ∧ x = rowSpecies fieldnames cells) ∨
  (rowSpecies fieldnames cells = [] ∧ rowGenus fieldnames cells ≠ [] ∧
    x = rowGenus fieldnames cells)

/-- The pair a single row contributes to the pair set: (stripped species,
stripped kingdom), only when both are non-empty. -/
def pairContrib (fieldnames cells : List Str) (p : Str × Str) : Prop :=
  rowSpecies fieldnames cells ≠ [] ∧ rowKingdom fieldnames cells ≠ [] ∧
  p = (rowSpecies fieldnames cells, rowKingdom fieldnames cells)

theorem mem_setAdd {α : Type} [DecidableEq α] (l : List α) (x y : α) :
    y ∈ setAdd l x ↔ y ∈ l ∨ y = x := by
  unfold setAdd
  by_cases h : x ∈ l
  · rw [if_pos h]
    constructor
    · exact Or.inl
    · rintro (h' | rfl)
      · exact h'
      · exact h
  · rw [if_neg h]
    simp

theorem nodup_setAdd {α : Type} [DecidableEq α] {l : List α} (x : α) (h : l.Nodup) :
    (setAdd l x).Nodup := by
  unfold setAdd
  by_cases hx : x ∈ l
  · rwa [if_pos hx]
  · rw [if_neg hx]
    simp [List.nodup_append, h, hx]

theorem names_aggStep (fn : List Str) (st : AggState) (cells : List Str) (x : Str) :
    x ∈ (aggStep fn st cells).names ↔ x ∈ st.names ∨ nameContrib fn cells x := by
  unfold aggStep nameContrib
  by_cases hsp : rowSpecies fn cells ≠ []
  · rw [if_pos hsp]
    simp [mem_setAdd, hsp]
  · rw [if_neg hsp]
    have hsp' : rowSpecies fn cells = [] := not_not.mp hsp
    by_cases hg : rowGenus fn cells ≠ []
    · rw [if_pos hg]
      simp [mem_setAdd, hsp', hg]
    · rw [if_neg hg]
      simp [hsp', hg]

theorem pairs_aggStep (fn : List Str) (st : AggState) (cells : List Str) (p : Str × Str) :
    p ∈ (aggStep fn st cells).pairs ↔ p ∈ st.pairs ∨ pairContrib fn cells p := by
  unfold aggStep pairContrib
  by_cases hsp : rowSpecies fn cells ≠ []
  · rw [if_pos hsp]
    by_cases hk : rowKingdom fn cells ≠ []
    · simp [if_pos hk, mem_setAdd, hsp, hk]
    · simp [if_neg hk, hsp, hk]
  · rw [if_neg hsp]
    have hsp' : rowSpecies fn cells = [] := not_not.mp hsp
    by_cases hg : rowGenus fn cells ≠ []
    · rw [if_pos hg]
      simp [hsp']
    · rw [if_neg hg]
      simp [hsp']

theorem names_foldl (fn : List Str) :
    ∀ (rows : List (List Str)) (st : AggState) (x : Str),
      x ∈ (rows.foldl (aggStep fn) st).names ↔
        x ∈ st.names ∨ ∃ cells ∈ rows, nameContrib fn cells x := by
  intro rows
  induction rows with
  | nil => simp
  | cons r rs ih =>
    intro st x
    rw [List.foldl_cons, ih, names_aggStep]
    simp [or_assoc]

theorem pairs_foldl (fn : List Str) :
    ∀ (rows : List (List Str)) (st : AggState) (p : Str × Str),
      p ∈ (rows.foldl (aggStep fn) st).pairs ↔
        p ∈ st.pairs ∨ ∃ cells ∈ rows, pairContrib fn cells p := by
  intro rows
  induction rows with
  | nil => simp
  | cons r rs ih =>
    intro st p
    rw [List.foldl_cons, ih, pairs_aggStep]
    simp [or_assoc]

/-- Membership in the search-name set built by the row loop. -/
theorem mem_aggregate_names (fn : List Str) (rows : List (List Str)) (x : Str) :
    x ∈ (aggregate fn rows).names ↔ ∃ cells ∈ rows, nameContrib fn cells x := by
  unfold aggregate
  rw [names_foldl]
  simp

/-- Membership in the species/kingdom pair set built by the row loop. -/
theorem mem_aggregate_pairs (fn : List Str) (rows : List (List Str)) (p : Str × Str) :
    p ∈ (aggregate fn rows).pairs ↔ ∃ cells ∈ rows, pairContrib fn cells p := by
  unfold aggregate
  rw [pairs_foldl]
  simp

theorem nodup_aggStep (fn : List Str) (st : AggState) (cells : List Str)
    (h1 : st.names.Nodup) (h2 : st.pairs.Nodup) :
    (aggStep fn st cells).names.Nodup ∧ (aggStep fn st cells).pairs.Nodup := by
  unfold aggStep
  by_cases hsp : rowSpecies fn cells ≠ []
  · rw [if_pos hsp]
    refine ⟨nodup_setAdd _ h1, ?_⟩
    by_cases hk : rowKingdom fn cells ≠ []
    · simp only [if_pos hk]
      exact nodup_setAdd _ h2
    · simp only [if_neg hk]
      exact h2
  · rw [if_neg hsp]
    by_cases hg : rowGenus fn cells ≠ []
    · rw [if_pos hg]
      exact ⟨nodup_setAdd _ h1, h2⟩
    · rw [if_neg hg]
      exact ⟨h1, h2⟩

theorem nodup_foldl (fn : List Str) :
    ∀ (rows : List (List Str)) (st : AggState),
      st.names.Nodup → st.pairs.Nodup →
      (rows.foldl (aggStep fn) st).names.Nodup ∧
        (rows.foldl (aggStep fn) st).pairs.Nodup := by
  intro rows
  induction rows with
  | nil => intro st h1 h2; exact ⟨h1, h2⟩
  | cons r rs ih =>
    intro st h1 h2
    rw [List.foldl_cons]
    obtain ⟨h1', h2'⟩ := nodup_aggStep fn st r h1 h2
    exact ih _ h1' h2'

/-- The two accumulator sets never hold duplicates. -/
theorem nodup_aggregate (fn : List Str) (rows : List (List Str)) :
    (aggregate fn rows).names.Nodup ∧ (aggregate fn rows).pairs.Nodup :=
  nodup_foldl fn rows ⟨[], []⟩ List.nodup_nil List.nodup_nil

/-! ## Serialization helper lemmas -/

theorem mem_sortStr {x : Str} {l : List Str} : x ∈ sortStr l ↔ x ∈ l :=
  mem_insSort strLe

theorem mem_sortPairs {p : Str × Str} {l : List (Str × Str)} : p ∈ sortPairs l ↔ p ∈ l :=
  mem_insSort pairLe

theorem sorted_sortStr (l : List Str) :
    (sortStr l).Pairwise (fun a b => strLe a b = true) :=
  sorted_insSort strLe strLe_trans strLe_total l

theorem sorted_sortPairs (l : List (Str × Str)) :
    (sortPairs l).Pairwise (fun p q => pairLe p q = true) :=
  sorted_insSort pairLe pairLe_trans pairLe_total l

theorem csvNeedsQuote_iff (s : Str) :
    csvNeedsQuote s = true ↔ ∃ c ∈ s, c = '\t' ∨ c = '"' ∨ c = '\r' ∨ c = '\n' := by
  unfold csvNeedsQuote
  rw [List.any_eq_true]
  constructor
  · rintro ⟨c, hc, hp⟩
    refine ⟨c, hc, ?_⟩
    simpa [or_assoc] using hp
  · rintro ⟨c, hc, hp⟩
    refine ⟨c, hc, ?_⟩
    simpa [or_assoc] using hp

theorem csvEscape_length (s : Str) : s.length ≤ (csvEscape s).length := by
  induction s with
  | nil => simp [csvEscape]
  | cons c cs ih =>
    unfold csvEscape at ih ⊢
    rw [List.flatMap_cons, List.length_append, List.length_cons]
    by_cases h : c = '"'
    · simp only [if_pos h, List.length_cons, List.length_nil]
      omega
    · simp only [if_neg h]
      simp only [List.length_cons, List.length_nil]
      omega

theorem csvField_quoted (s : Str) (h : csvNeedsQuote s = true) :
    csvField s = '"' :: (csvEscape s ++ ['"']) ∧ csvField s ≠ s := by
  constructor
  · unfold csvField
    rw [if_pos h]
  · unfold csvField
    rw [if_pos h]
    intro heq
    have hlen := congrArg List.length heq
    simp only [List.length_cons, List.length_append] at hlen
    have := csvEscape_length s
    omega

/-! ## Sample data for witnesses -/

def sampleHeader : List Str := ["species".data, "genus".data, "kingdom".data]

def sampleRows : List (List Str) :=
  [["Panthera leo".data, "Panthera".data, "Animalia".data],
   ["".data, "Quercus".data, "Plantae".data],
   ["Panthera leo".data, "Panthera".data, "Animalia".data]]

def sampleBadHeader : List Str := ["taxon".data, "genus".data, "kingdom".data]

/-- A csv-reader stub returning a fixed table, for concrete runs. -/
def parseConst (table : List (List Str)) : Char → Str → List (List Str) :=
  fun _ _ => table

/-! ## Claims -/

/-- C3: for every non-empty first line, the detected delimiter is tab when
the line has a tab and no comma, comma when it has a comma and no tab,
and otherwise whichever of the two occurs more often in the line, with
ties choosing tab. -/
theorem claim3_delimiter_detection (line : Str) (_hne : line ≠ []) :
    (('\t' ∈ line ∧ ',' ∉ line) → detectDelimiter line = '\t') ∧
    ((',' ∈ line ∧ '\t' ∉ line) → detectDelimiter line = ',') ∧
    ((('\t' ∈ line ∧ ',' ∈ line) ∨ ('\t' ∉ line ∧ ',' ∉ line)) →
      detectDelimiter line =
        if line.count ',' ≤ line.count '\t' then '\t' else ',') := by
  refine ⟨?_, ?_, ?_⟩
  · intro h
    simp [detectDelimiter, h.1, h.2]
  · intro h
    have h1 : ¬('\t' ∈ line ∧ ',' ∉ line) := fun hc => hc.2 h.1
    simp [detectDelimiter, h1, h.1, h.2]
  · rintro (⟨h1, h2⟩ | ⟨h1, h2⟩)
    · simp [detectDelimiter, h1, h2]
    · simp [detectDelimiter, h1, h2]

theorem claim3_delimiter_detection_witness :
    (('\t' ∈ ("a\tb,c\td\n".data : Str) ∧ ',' ∉ ("a\tb,c\td\n".data : Str)) →
      detectDelimiter "a\tb,c\td\n".data = '\t') ∧
    ((',' ∈ ("a\tb,c\td\n".data : Str) ∧ '\t' ∉ ("a\tb,c\td\n".data : Str)) →
      detectDelimiter "a\tb,c\td\n".data = ',') ∧
    ((('\t' ∈ ("a\tb,c\td\n".data : Str) ∧ ',' ∈ ("a\tb,c\td\n".data : Str)) ∨
      ('\t' ∉ ("a\tb,c\td\n".data : Str) ∧ ',' ∉ ("a\tb,c\td\n".data : Str))) →
      detectDelimiter "a\tb,c\td\n".data =
        if ("a\tb,c\td\n".data : Str).count ',' ≤ ("a\tb,c\td\n".data : Str).count '\t'
        then '\t' else ',') :=
  claim3_delimiter_detection "a\tb,c\td\n".data (by decide)

/-- C7: a zero-byte input (no readable first line) makes the program fail
with the empty-input error and exit code 1 before writing any output. -/
theorem claim7_empty_input (parse : Char → Str → List (List Str)) (pfx : Str) :
    runProgram parse pfx [] = ⟨1, some .emptyInput, []⟩ := rfl

/-- C8: file 1 is exactly the sorted sequence of the distinct names, one
per line, each line newline-terminated; the lines are in ascending
code-point order, duplicate-free and never blank, and an empty name set
yields an empty file. -/
theorem claim8_file1_format (fn : List Str) (rows : List (List Str)) :
    writeFile1 (aggregate fn rows).names =
      ((sortStr (aggregate fn rows).names).map fun n => n ++ ['\n']).flatten ∧
    (sortStr (aggregate fn rows).names).Pairwise (fun a b => strLe a b = true) ∧
    (sortStr (aggregate fn rows).names).Nodup ∧
    (∀ n ∈ sortStr (aggregate fn rows).names, n ≠ []) ∧
    ((aggregate fn rows).names = [] → writeFile1 (aggregate fn rows).names = []) := by
  refine ⟨rfl, sorted_sortStr _, ?_, ?_, ?_⟩
  · exact ((perm_insSort strLe _).nodup_iff).mpr (nodup_aggregate fn rows).1
  · intro n hn
    have hx : n ∈ (aggregate fn rows).names := mem_sortStr.mp hn
    rw [mem_aggregate_names] at hx
    obtain ⟨cells, _, hc⟩ := hx
    rcases hc with ⟨hne, rfl⟩ | ⟨_, hne, rfl⟩ <;> exact hne
  · intro h
    rw [writeFile1, h]
    rfl

theorem claim8_file1_format_witness :
    writeFile1 (aggregate sampleHeader sampleRows).names =
      ((sortStr (aggregate sampleHeader sampleRows).names).map fun n => n ++ ['\n']).flatten ∧
    (sortStr (aggregate sampleHeader sampleRows).names).Pairwise
      (fun a b => strLe a b = true) ∧
    (sortStr (aggregate sampleHeader sampleRows).names).Nodup ∧
    (∀ n ∈ sortStr (aggregate sampleHeader sampleRows).names, n ≠ []) ∧
    ((aggregate sampleHeader sampleRows).names = [] →
      writeFile1 (aggregate sampleHeader sampleRows).names = []) :=
  claim8_file1_format sampleHeader sampleRows

/-- C1: for a valid header, the lines of file 1 are exactly the distinct
stripped species of rows with non-empty stripped species together with
the distinct stripped genera of rows with empty stripped species and
non-empty stripped genus, each appearing once, in ascending order. -/
theorem claim1_search_names (fn : List Str) (rows : List (List Str))
    (_hvalid : missingCols fn = []) :
    (∀ x, x ∈ sortStr (aggregate fn rows).names ↔
      ∃ cells ∈ rows, nameContrib fn cells x) ∧
    (sortStr (aggregate fn rows).names).Nodup ∧
    (sortStr (aggregate fn rows).names).Pairwise (fun a b => strLe a b = true) := by
  refine ⟨?_, ?_, sorted_sortStr _⟩
  · intro x
    exact mem_sortStr.trans (mem_aggregate_names fn rows x)
  · exact ((perm_insSort strLe _).nodup_iff).mpr (nodup_aggregate fn rows).1

theorem claim1_search_names_witness :
    (∀ x, x ∈ sortStr (aggregate sampleHeader sampleRows).names ↔
      ∃ cells ∈ sampleRows, nameContrib sampleHeader cells x) ∧
    (sortStr (aggregate sampleHeader sampleRows).names).Nodup ∧
    (sortStr (aggregate sampleHeader sampleRows).names).Pairwise
      (fun a b => strLe a b = true) :=
  claim1_search_names sampleHeader sampleRows (by decide)

/-- C2: for a valid header, the pair set written to file 2 is exactly the
set of distinct (stripped species, stripped kingdom) pairs of rows where
both are non-empty, each pair has non-empty components, the list is
duplicate-free and sorted by (species, kingdom), and a row with empty
stripped species contributes no pair at all. -/
theorem claim2_pair_set (fn : List Str) (rows : List (List Str))
    (_hvalid : missingCols fn = []) :
    (∀ p, p ∈ sortPairs (aggregate fn rows).pairs ↔
      ∃ cells ∈ rows, pairContrib fn cells p) ∧
    (∀ p ∈ sortPairs (aggregate fn rows).pairs, p.1 ≠ [] ∧ p.2 ≠ []) ∧
    (sortPairs (aggregate fn rows).pairs).Nodup ∧
    (sortPairs (aggregate fn rows).pairs).Pairwise (fun p q => pairLe p q = true) ∧
    (∀ cells, rowSpecies fn cells = [] → ∀ p, ¬pairContrib fn cells p) := by
  refine ⟨?_, ?_, ?_, sorted_sortPairs _, ?_⟩
  · intro p
    exact mem_sortPairs.trans (mem_aggregate_pairs fn rows p)
  · intro p hp
    have hx : p ∈ (aggregate fn rows).pairs := mem_sortPairs.mp hp
    rw [mem_aggregate_pairs] at hx
    obtain ⟨cells, _, hsp, hk, rfl⟩ := hx
    exact ⟨hsp, hk⟩
  · exact ((perm_insSort pairLe _).nodup_iff).mpr (nodup_aggregate fn rows).2
  · intro cells hsp p hc
    exact hc.1 hsp

theorem claim2_pair_set_witness :
    (∀ p, p ∈ sortPairs (aggregate sampleHeader sampleRows).pairs ↔
      ∃ cells ∈ sampleRows, pairContrib sampleHeader cells p) ∧
    (∀ p ∈ sortPairs (aggregate sampleHeader sampleRows).pairs, p.1 ≠ [] ∧ p.2 ≠ []) ∧
    (sortPairs (aggregate sampleHeader sampleRows).pairs).Nodup ∧
    (sortPairs (aggregate sampleHeader sampleRows).pairs).Pairwise
      (fun p q => pairLe p q = true) ∧
    (∀ cells, rowSpecies sampleHeader cells = [] →
      ∀ p, ¬pairContrib sampleHeader cells p) :=
  claim2_pair_set sampleHeader sampleRows (by decide)

/-- C6: the serialized outputs are a function of the computed sets alone.
A run is modelled with an explicit set-enumeration order (Python's `set`
iteration order is arbitrary); any two runs over the same input, whatever
orders their sets enumerate in, produce byte-identical files. -/
theorem claim6_deterministic (fn : List Str) (rows : List (List Str))
    (l1 l2 : List Str) (q1 q2 : List (Str × Str))
    (h1 : l1.Perm (aggregate fn rows).names) (h2 : l2.Perm (aggregate fn rows).names)
    (h3 : q1.Perm (aggregate fn rows).pairs) (h4 : q2.Perm (aggregate fn rows).pairs) :
    writeFile1 l1 = writeFile1 l2 ∧ writeFile2 q1 = writeFile2 q2 := by
  constructor
  · have hperm : (sortStr l1).Perm (sortStr l2) :=
      ((perm_insSort strLe l1).trans (h1.trans h2.symm)).trans (perm_insSort strLe l2).symm
    have hsort : sortStr l1 = sortStr l2 :=
      sorted_perm_eq strLe strLe_antisymm hperm (sorted_sortStr l1) (sorted_sortStr l2)
    unfold writeFile1
    rw [hsort]
  · have hperm : (sortPairs q1).Perm (sortPairs q2) :=
      ((perm_insSort pairLe q1).trans (h3.trans h4.symm)).trans (perm_insSort pairLe q2).symm
    have hsort : sortPairs q1 = sortPairs q2 :=
      sorted_perm_eq pairLe pairLe_antisymm hperm (sorted_sortPairs q1) (sorted_sortPairs q2)
    unfold writeFile2
    rw [hsort]

theorem claim6_deterministic_witness :
    writeFile1 ["Quercus".data, "Panthera leo".data] =
      writeFile1 ["Panthera leo".data, "Quercus".data] ∧
    writeFile2 [("Panthera leo".data, "Animalia".data)] =
      writeFile2 [("Panthera leo".data, "Animalia".data)] :=
  claim6_deterministic sampleHeader sampleRows _ _ _ _
    (by decide) (by decide) (by decide) (by decide)

/-- The writer C5 literally describes: every record is the species value,
one tab, the kingdom value and the record terminator, with no quoting. -/
def claimedPlainFile2 (pairs : List (Str × Str)) : Str :=
  ((sortPairs pairs).map fun p => p.1 ++ '\t' :: (p.2 ++ ['\r', '\n'])).flatten

/-- C5 counterexample: a species value containing a double quote (which
CSV parsing produces from an input field such as `"a""b"`) is written
CSV-quoted, so its line is not species + TAB + kingdom verbatim. -/
theorem claim5_counterexample :
    writeFile2 (aggregate sampleHeader
        [["a\"b".data, "Panthera".data, "Animalia".data]]).pairs ≠
      claimedPlainFile2 (aggregate sampleHeader
        [["a\"b".data, "Panthera".data, "Animalia".data]]).pairs := by
  decide

/-- C5 (amended): for pairs whose values contain no tab, double quote,
CR or LF, file 2 is exactly the claimed verbatim species + TAB + kingdom
lines, sorted ascending by (species, kingdom), with no header row;
values containing such characters are CSV-quoted instead. -/
theorem claim5_file2_lines (pairs : List (Str × Str))
    (hclean : ∀ p ∈ pairs, csvNeedsQuote p.1 = false ∧ csvNeedsQuote p.2 = false) :
    writeFile2 pairs = claimedPlainFile2 pairs ∧
    (sortPairs pairs).Pairwise (fun p q => pairLe p q = true) := by
  refine ⟨?_, sorted_sortPairs _⟩
  unfold writeFile2 claimedPlainFile2
  congr 1
  apply List.map_congr_left
  intro p hp
  obtain ⟨hc1, hc2⟩ := hclean p (mem_sortPairs.mp hp)
  simp [csvRow, csvField, hc1, hc2]

theorem claim5_file2_lines_witness :
    writeFile2 [("Panthera leo".data, "Animalia".data)] =
      claimedPlainFile2 [("Panthera leo".data, "Animalia".data)] ∧
    (sortPairs [("Panthera leo".data, "Animalia".data)]).Pairwise
      (fun p q => pairLe p q = true) :=
  claim5_file2_lines _ (by decide)

/-- C9: every record of file 2 ends with CRLF rather than a bare LF, and
a value containing a tab, double quote, CR or LF is emitted enclosed in
double quotes with embedded quotes doubled, not verbatim. -/
theorem claim9_csv_writer (pairs : List (Str × Str)) (sp kd : Str)
    (_hmem : (sp, kd) ∈ sortPairs pairs) :
    (∃ body : Str, csvRow (sp, kd) = body ++ ['\r', '\n']) ∧
    ((∃ c ∈ sp, c = '\t' ∨ c = '"' ∨ c = '\r' ∨ c = '\n') →
      csvField sp = '"' :: (csvEscape sp ++ ['"']) ∧ csvField sp ≠ sp) ∧
    ((∃ c ∈ kd, c = '\t' ∨ c = '"' ∨ c = '\r' ∨ c = '\n') →
      csvField kd = '"' :: (csvEscape kd ++ ['"']) ∧ csvField kd ≠ kd) := by
  refine ⟨⟨csvField sp ++ '\t' :: csvField kd, by simp [csvRow]⟩, ?_, ?_⟩
  · intro h
    exact csvField_quoted sp ((csvNeedsQuote_iff sp).mpr h)
  · intro h
    exact csvField_quoted kd ((csvNeedsQuote_iff kd).mpr h)

theorem claim9_csv_writer_witness :
    (∃ body : Str, csvRow ("a\tb".data, "Animalia".data) = body ++ ['\r', '\n']) ∧
    ((∃ c ∈ ("a\tb".data : Str), c = '\t' ∨ c = '"' ∨ c = '\r' ∨ c = '\n') →
      csvField "a\tb".data = '"' :: (csvEscape "a\tb".data ++ ['"']) ∧
        csvField "a\tb".data ≠ "a\tb".data) ∧
    ((∃ c ∈ ("Animalia".data : Str), c = '\t' ∨ c = '"' ∨ c = '\r' ∨ c = '\n') →
      csvField "Animalia".data = '"' :: (csvEscape "Animalia".data ++ ['"']) ∧
        csvField "Animalia".data ≠ "Animalia".data) :=
  claim9_csv_writer [("a\tb".data, "Animalia".data)] "a\tb".data "Animalia".data
    (by decide)

/-- C4: when some required column name is absent from the header under
case-insensitive comparison, the program exits with code 1, reports the
missing-columns error carrying the list of missing names and the full
list of found header names, and writes no output file; the reported
missing list holds exactly the required names absent from the header. -/
theorem claim4_missing_columns (parse : Char → Str → List (List Str))
    (pfx input : Str) (fn : List Str)
    (hne : input ≠ [])
    (hfn : (parse (detectDelimiter (readFirstLine input)) input).headD [] = fn)
    (hmiss : ∃ c ∈ requiredCols, ∀ n ∈ fn, lowerStr n ≠ c) :
    runProgram parse pfx input =
      ⟨1, some (.missingColumns (missingCols fn) fn), []⟩ ∧
    (∀ c, c ∈ missingCols fn ↔ (c ∈ requiredCols ∧ ∀ n ∈ fn, lowerStr n ≠ c)) := by
  have hchar : ∀ c, c ∈ missingCols fn ↔ (c ∈ requiredCols ∧ ∀ n ∈ fn, lowerStr n ≠ c) := by
    intro c
    unfold missingCols
    rw [List.mem_filter]
    constructor
    · rintro ⟨hc, hp⟩
      refine ⟨hc, ?_⟩
      rw [← lookupA_buildLowerMap_none]
      exact Option.isNone_iff_eq_none.mp (by simpa using hp)
    · rintro ⟨hc, hp⟩
      refine ⟨hc, ?_⟩
      simp [(lookupA_buildLowerMap_none fn c).mpr hp]
  refine ⟨?_, hchar⟩
  have hne' : missingCols fn ≠ [] := by
    obtain ⟨c, hc, hp⟩ := hmiss
    exact List.ne_nil_of_mem ((hchar c).mpr ⟨hc, hp⟩)
  unfold runProgram
  rw [if_neg hne]
  simp only [hfn]
  rw [if_pos hne']

theorem claim4_missing_columns_witness :
    runProgram (parseConst [sampleBadHeader]) "out".data "taxon,genus,kingdom\n".data =
      ⟨1, some (.missingColumns (missingCols sampleBadHeader) sampleBadHeader), []⟩ ∧
    (∀ c, c ∈ missingCols sampleBadHeader ↔
      (c ∈ requiredCols ∧ ∀ n ∈ sampleBadHeader, lowerStr n ≠ c)) :=
  claim4_missing_columns (parseConst [sampleBadHeader]) "out".data
    "taxon,genus,kingdom\n".data sampleBadHeader (by decide) (by decide) (by decide)

/-- C10: when several header fields share a lowercase form, the
case-insensitive resolution binds the logical name to the last such field
in header order, and row values for that logical name are read from that
column (its index is the length of the preceding header segment). -/
theorem claim10_last_binding (pre suf : List Str) (n : Str) (cells : List Str)
    (key : Str) (hk : lowerStr n = key) (hs : ∀ m ∈ suf, lowerStr m ≠ key) :
    lookupA (buildLowerMap (pre ++ n :: suf)) key = some n ∧
    readField (pre ++ n :: suf) cells key = cells.getD pre.length [] := by
  have hlook : lookupA (buildLowerMap (pre ++ n :: suf)) key = some n := by
    rw [lookupA_buildLowerMap, List.filter_append]
    have hsuf : (n :: suf).filter (fun m => decide (lowerStr m = key)) = [n] := by
      have h2 : suf.filter (fun m => decide (lowerStr m = key)) = [] :=
        List.filter_eq_nil_iff.mpr (by intro m hm; simp [hs m hm])
      rw [List.filter_cons]
      simp [hk, h2]
    rw [hsuf, List.getLast?_concat]
  refine ⟨hlook, ?_⟩
  unfold readField
  rw [hlook]
  show rowGet (pre ++ n :: suf) cells n = cells.getD pre.length []
  unfold rowGet rowDict
  rw [lookupA_buildDict, padZip_append, padZip_cons, List.filter_append,
    List.filter_cons]
  have hsufnil : (padZip suf ((cells.drop pre.length).tail)).filter
      (fun kv => decide (kv.1 = n)) = [] := by
    rw [List.filter_eq_nil_iff]
    intro p hp
    have h1 : p.1 ∈ suf := fst_mem_padZip suf _ p hp
    simp only [decide_eq_true_eq]
    intro hpn
    exact hs p.1 h1 (by rw [hpn]; exact hk)
  simp only [hsufnil]
  simp [headD_drop]

theorem claim10_last_binding_witness :
    lookupA (buildLowerMap (["Species".data] ++ "SPECIES".data :: ["genus".data]))
      "species".data = some "SPECIES".data ∧
    readField (["Species".data] ++ "SPECIES".data :: ["genus".data])
      ["a".data, "b".data, "c".data] "species".data =
      (["a".data, "b".data, "c".data] : List Str).getD
        (["Species".data] : List Str).length [] :=
  claim10_last_binding ["Species".data] ["genus".data] "SPECIES".data
    ["a".data, "b".data, "c".data] "species".data (by decide) (by decide)

end GbifPrep
